import Mathlib

/-!
Verification of the graceful-monitor subsystem of
cluster-kube-apiserver-operator.

The development shallowly embeds the Go sources
`pkg/cmd/gracefulmonitor/cmd.go` and `pkg/cmd/gracefulmonitor/iptables.go`.
Pure functions (`portMapForOffset`, `activePortMap`, `NextPortMap`,
`dnatRule`, `establishedDNATRule`) become Lean functions.  The stateful
iptables handle is embedded, following the design note of the spec, as an
explicit in-memory resource implementing the list/append/delete capability
set of `github.com/coreos/go-iptables`; every operation threads a `World`
state explicitly and can fail, returning a `Res` value that carries the
state reached at the point of failure (mirroring Go, where side effects
performed before an error return persist).

A Go `map[int]int` port map is embedded as an association list in the fixed
literal order of `portMapForOffset`; Go map iteration order is unspecified,
so all reconciliation properties proved below are stated membership-wise
(order-insensitively) except for concrete end-to-end scenarios, whose rule
order is an artifact of this canonical ordering.

Fault injection: each iptables primitive consumes one index of a call
counter; a call whose index is listed in `World.faults` fails with
`GoErr.fault`.  This models the "any underlying chain/list/append/delete
call failing" failure semantics of the spec without changing the
fault-free behaviour (with `faults = []` no injected failure occurs).
-/

/-- Errors of the embedded Go runtime: an injected iptables-level fault
(tagged with the index of the failing call), a missing or duplicate chain, a
delete of an absent rule, and a failing `os.Remove`. -/
inductive GoErr where
  | fault (n : Nat)
  | chainMissing
  | chainAlready
  | ruleMissing
  | fileMissing (name : String)
deriving DecidableEq, Repr

/-- From iptables.go: `const apiChain = "OPENSHIFT_APISERVER_REWRITE"`. -/
def apiChain : String := "OPENSHIFT_APISERVER_REWRITE"

/-- From iptables.go `dnatRule`: the argument list of an unconditional DNAT
rule forwarding `targetPort` to `destinationPort`. -/
def dnatRule (targetPort destinationPort : Nat) : List String :=
  ["-m", "addrtype", "--dst-type", "LOCAL",
   "-p", "tcp", "--dport", toString targetPort,
   "-j", "DNAT", "--to-destination", ":" ++ toString destinationPort]

/-- From iptables.go `establishedDNATRule`: the DNAT rule additionally
scoped to established/related connection state. -/
def establishedDNATRule (targetPort destinationPort : Nat) : List String :=
  ["-m", "state", "--state", "ESTABLISHED,RELATED"] ++
    dnatRule targetPort destinationPort

/-- The stringified form of a rule, as built by `strings.Join(rule, " ")`
in iptables.go; the in-memory chain stores rules in this form. -/
def ruleKey (rule : List String) : String :=
  String.intercalate " " rule

/-- The jump rule `[]string{"-j", apiChain}` of `ensureActiveRules`. -/
def jumpKey : String := ruleKey ["-j", apiChain]

/-- From cmd.go `portMapForOffset`: maps each canonical port
(secure 6443, insecure 6080, check 17697) to `canonical + offset`. -/
def portMapForOffset (offset : Nat) : List (Nat × Nat) :=
  [(6443, 6443 + offset), (6080, 6080 + offset), (17697, 17697 + offset)]

/-- The offset computation `activePort % 6443` inlined in cmd.go
`activePortMap` (named `offsetForActivePort` by the spec). -/
def offsetForActivePort (activePort : Nat) : Nat :=
  activePort % 6443

/-- From cmd.go `activePortMap`: the port map of the active instance. -/
def activePortMap (activePort : Nat) : List (Nat × Nat) :=
  portMapForOffset (offsetForActivePort activePort)

/-- The offset chosen by cmd.go `NextPortMap`: `offset := 1`, set to `2`
only when `activePort == 6444`. -/
def nextPortOffset (activePort : Nat) : Nat :=
  if activePort == 6444 then 2 else 1

/-- From cmd.go `NextPortMap`: the port map of the incoming instance. -/
def NextPortMap (activePort : Nat) : List (Nat × Nat) :=
  portMapForOffset (nextPortOffset activePort)

/-- Embeds Go map indexing `m[k]` on a port map: the value at `k`, or the zero
value `0` when `k` is absent. -/
def mapGet (m : List (Nat × Nat)) (k : Nat) : Nat :=
  (List.lookup k m).getD 0

/-- The secure-port value of the next map, used to feed the output of
`NextPortMap` back in as the `activePort` of the following call. -/
def stepSecure (activePort : Nat) : Nat :=
  mapGet (NextPortMap activePort) 6443

/-- Iterating `stepSecure` starting from the canonical secure port 6443. -/
def iterSecure : Nat → Nat
  | 0 => 6443
  | n + 1 => stepSecure (iterSecure n)


/-- The state of the `nat` table as touched by the subsystem: the two
built-in chains into which jump rules are appended, and the dedicated
chain, which may or may not exist.  Rules are stored stringified (the
form in which iptables.go keys, lists and deletes them). -/
structure IptState where
  prerouting : List String
  output : List String
  apiChainExists : Bool
  apiRules : List String
deriving DecidableEq, Repr

/-- The world threaded through a run: the iptables state, the manifest
files on disk, the warning and error logs emitted via klog, the count of
iptables calls made so far, and the injected-fault schedule (indices of
iptables calls that fail). -/
structure World where
  ipt : IptState
  files : List String
  warnings : List String
  elog : List GoErr
  calls : Nat
  faults : List Nat
deriving DecidableEq, Repr

/-- Result of a fallible step: mirrors a Go `(value, error)` return, but
additionally carries the world as mutated up to the point of return (in
Go the side effects performed before an error return persist). -/
inductive Res (α : Type) where
  | ok (a : α) (w : World)
  | err (e : GoErr) (w : World)
deriving DecidableEq, Repr

/-- The world carried by a result, whether or not it is an error. -/
def Res.world : Res α → World
  | .ok _ w => w
  | .err _ w => w

/-- Whether a result is a non-error return. -/
def Res.isOk : Res α → Bool
  | .ok _ _ => true
  | .err _ _ => false

/-- Sequencing of fallible steps, short-circuiting on error exactly as
the Go `if err != nil { return err }` idiom does. -/
def Res.bind (x : Res α) (f : α → World → Res β) : Res β :=
  match x with
  | .ok a w => f a w
  | .err e w => .err e w

/-- Whether the next iptables call hits the injected-fault schedule. -/
def hitFault (w : World) : Bool :=
  w.faults.contains w.calls

/-- Advance the iptables call counter by one. -/
def bump (w : World) : World :=
  { w with calls := w.calls + 1 }

/-- The three chains of the `nat` table addressed by iptables.go. -/
inductive Chain where
  | prerouting
  | output
  | api
deriving DecidableEq, Repr

/-- The rules of a chain, or `none` when the chain does not exist (the
built-in chains always exist). -/
def IptState.rulesOf : IptState → Chain → Option (List String)
  | s, .prerouting => some s.prerouting
  | s, .output => some s.output
  | s, .api => if s.apiChainExists then some s.apiRules else none

/-- Replace the rules of a chain. -/
def IptState.setRules : IptState → Chain → List String → IptState
  | s, .prerouting, rs => { s with prerouting := rs }
  | s, .output, rs => { s with output := rs }
  | s, .api, rs => { s with apiRules := rs }

/-- Embeds `ipt.ChainExists("nat", apiChain)`. -/
def chainExistsApi (w : World) : Res Bool :=
  if hitFault w then .err (.fault w.calls) (bump w)
  else .ok w.ipt.apiChainExists (bump w)

/-- Embeds `ipt.NewChain("nat", apiChain)`: creates the dedicated chain empty;
errors if it already exists. -/
def newChainApi (w : World) : Res Unit :=
  if hitFault w then .err (.fault w.calls) (bump w)
  else if w.ipt.apiChainExists then .err .chainAlready (bump w)
  else
    .ok () { bump w with ipt := { w.ipt with apiChainExists := true, apiRules := [] } }

/-- Embeds `ipt.AppendUnique("nat", chain, rule...)`: appends the rule unless it
is already present; errors if the chain does not exist. -/
def appendUnique (c : Chain) (rule : String) (w : World) : Res Unit :=
  if hitFault w then .err (.fault w.calls) (bump w)
  else
    match w.ipt.rulesOf c with
    | none => .err .chainMissing (bump w)
    | some rs =>
      .ok () { bump w with ipt := w.ipt.setRules c (if rs.contains rule then rs else rs ++ [rule]) }

/-- Embeds `ipt.List("nat", apiChain)`: the current rules of the chain. -/
def listApi (w : World) : Res (List String) :=
  if hitFault w then .err (.fault w.calls) (bump w)
  else
    match w.ipt.rulesOf .api with
    | none => .err .chainMissing (bump w)
    | some rs => .ok rs (bump w)

/-- Embeds `ipt.Delete("nat", apiChain, chainRule)`: removes one occurrence of
the rule; errors if the chain or the rule is absent. -/
def deleteApi (rule : String) (w : World) : Res Unit :=
  if hitFault w then .err (.fault w.calls) (bump w)
  else
    match w.ipt.rulesOf .api with
    | none => .err .chainMissing (bump w)
    | some rs =>
      if rs.contains rule then
        .ok () { bump w with ipt := w.ipt.setRules Chain.api (rs.erase rule) }
      else .err .ruleMissing (bump w)

/-- Embeds `os.Remove(name)`: deletes the file, erroring when it is absent. -/
def osRemove (name : String) (w : World) : Res Unit :=
  if w.files.contains name then .ok () { w with files := w.files.erase name }
  else .err (.fileMissing name) w

/-- Embeds `klog.Warningf`: record a warning. -/
def logWarning (s : String) (w : World) : World :=
  { w with warnings := w.warnings ++ [s] }

/-- Embeds `klog.Errorf` on rollback failure: record the error. -/
def logError (e : GoErr) (w : World) : World :=
  { w with elog := w.elog ++ [e] }

/-- The stringified unconditional DNAT rules implied by a port map: the
keys of the `dnatRules` index built by `ensureActiveRules`. -/
def dnatKeys (portMap : List (Nat × Nat)) : List String :=
  portMap.map (fun td => ruleKey (dnatRule td.1 td.2))

/-- The stringified desired rules of `ensureTransitionRules`: the
established-scoped rules of the active map followed by the unconditional
rules of the next map. -/
def transitionKeys (activeMap nextMap : List (Nat × Nat)) : List String :=
  activeMap.map (fun td => ruleKey (establishedDNATRule td.1 td.2)) ++
    nextMap.map (fun td => ruleKey (dnatRule td.1 td.2))

/-- The `AppendUnique` loop over the desired rules of a reconciliation
(the `for target, destination := range portMap` loops of iptables.go). -/
def appendRules (keys : List String) (w : World) : Res Unit :=
  match keys with
  | [] => .ok () w
  | k :: rest => (appendUnique .api k w).bind fun _ w => appendRules rest w

/-- The deletion loop of iptables.go: walk the listed chain rules and
delete every rule whose key is not among the desired ones. -/
def deleteExtraRules (keys : List String) (chainRules : List String) (w : World) : Res Unit :=
  match chainRules with
  | [] => .ok () w
  | r :: rest =>
    if keys.contains r then deleteExtraRules keys rest w
    else (deleteApi r w).bind fun _ w => deleteExtraRules keys rest w

/-- From iptables.go `ensureActiveRules`: ensure the dedicated chain and
its jump rules exist, append any missing unconditional DNAT rule of
`portMap`, then delete every listed rule not among the desired ones. -/
def ensureActiveRules (portMap : List (Nat × Nat)) (w : World) : Res Unit :=
  (chainExistsApi w).bind fun exists? w =>
  (if exists? then .ok () w else newChainApi w).bind fun _ w =>
  (appendUnique .prerouting jumpKey w).bind fun _ w =>
  (appendUnique .output jumpKey w).bind fun _ w =>
  (appendRules (dnatKeys portMap) w).bind fun _ w =>
  (listApi w).bind fun chainRules w =>
  deleteExtraRules (dnatKeys portMap) chainRules w

/-- From iptables.go `ensureTransitionRules`: append any missing desired
rule (established-scoped ones for `activeMap`, unconditional ones for
`nextMap`), then delete every listed rule not among the desired ones.
Unlike `ensureActiveRules` it neither creates the chain nor its jumps. -/
def ensureTransitionRules (activeMap nextMap : List (Nat × Nat)) (w : World) : Res Unit :=
  (appendRules (transitionKeys activeMap nextMap) w).bind fun _ w =>
  (listApi w).bind fun chainRules w =>
  deleteExtraRules (transitionKeys activeMap nextMap) chainRules w

/-- From cmd.go `waitForConnRefused`: the readiness prober.  The body is
the stub `// TODO(marun) Implement healthcheck; return nil`: it returns
success immediately, performing no connection attempt and leaving the
world untouched. -/
def waitForConnRefused (port : Nat) (w : World) : Res Unit :=
  .ok () w

/-- A parsed static pod manifest (fields as used by cmd.go). -/
structure StaticPodManifest where
  Filename : String
  Revision : Nat
  Port : Nat
deriving DecidableEq, Repr

/-- Modelled from the spec: `StaticPodManifests.ActiveManifest` — the
implementation behind `ReadStaticPodManifests` is not under src, and the
spec states it "returns the manifest with the lowest revision among those
found".  Total variant over a nonempty scan result. -/
def activeManifestOf (m : StaticPodManifest) (rest : List StaticPodManifest) :
    StaticPodManifest :=
  rest.foldl (fun acc x => if x.Revision < acc.Revision then x else acc) m

/-- The warning emitted by cmd.go for more than two manifests. -/
def gracefulWarning (n : Nat) : String :=
  "Graceful transition only possible for 2 pods, but " ++ toString n ++ " found."

/-- From cmd.go `gracefulRollout`, with the result of the (out-of-src)
manifest scan passed in as the ordered manifest list.  Mirrors the Go
control flow statement by statement: the `switch` logs (only the
`default:` warning is observable in the model) and in particular does
not return for more than two manifests; each error return propagates the
error together with the world state reached; the three rollback blocks
log and return the inner (rollback) error when the rollback itself
fails. -/
def gracefulRollout (manifests : List StaticPodManifest) (w0 : World) : Res Unit :=
  match manifests with
  | [] => .ok () w0
  | m :: rest =>
    let w := if 2 < rest.length + 1 then logWarning (gracefulWarning (rest.length + 1)) w0 else w0
    let activeManifest := activeManifestOf m rest
    let activeMap := activePortMap activeManifest.Port
    (ensureActiveRules activeMap w).bind fun _ w =>
    if rest.length + 1 == 1 then .ok () w
    else
      let nextMap := NextPortMap activeManifest.Port
      let nextInsecurePort := mapGet nextMap 6080
      (waitForConnRefused nextInsecurePort w).bind fun _ w =>
      match ensureTransitionRules activeMap nextMap w with
      | .err e w =>
        (match ensureActiveRules activeMap w with
         | .err e2 w => .err e2 (logError e2 w)
         | .ok _ w => .err e w)
      | .ok _ w =>
        match osRemove activeManifest.Filename w with
        | .err e w =>
          (match ensureActiveRules activeMap w with
           | .err e2 w => .err e2 (logError e2 w)
           | .ok _ w => .err e w)
        | .ok _ w =>
          let activeInsecurePort := mapGet activeMap 6080
          match waitForConnRefused activeInsecurePort w with
          | .err e w =>
            (match ensureActiveRules activeMap w with
             | .err e2 w => .err e2 (logError e2 w)
             | .ok _ w => .err e w)
          | .ok _ w => ensureActiveRules nextMap w

/-- A world with no chain, no files, no logs, and no injected faults. -/
def cleanWorld (files : List String) : World :=
  { ipt := { prerouting := [], output := [], apiChainExists := false, apiRules := [] }
    files := files, warnings := [], elog := [], calls := 0, faults := [] }

/-- The scenario manifests: revision 3 at the canonical port, revision 4
at offset 1, revision 5 at offset 2. -/
def mRev3 : StaticPodManifest :=
  { Filename := "kube-apiserver-pod-3.yaml", Revision := 3, Port := 6443 }

/-- Revision-4 manifest at port 6444. -/
def mRev4 : StaticPodManifest :=
  { Filename := "kube-apiserver-pod-4.yaml", Revision := 4, Port := 6444 }

/-- Revision-5 manifest at port 6445. -/
def mRev5 : StaticPodManifest :=
  { Filename := "kube-apiserver-pod-5.yaml", Revision := 5, Port := 6445 }

/-- Clean world holding only the revision-3 manifest file. -/
def wSingle : World := cleanWorld [mRev3.Filename]

/-- Clean world holding the revision-3 and revision-4 manifest files. -/
def wPair : World := cleanWorld [mRev3.Filename, mRev4.Filename]

/-- Clean world holding three manifest files (degraded topology). -/
def wTriple : World := cleanWorld [mRev3.Filename, mRev4.Filename, mRev5.Filename]

/-- The world `wPair` with an injected fault at iptables call index 8: the first
call performed by `ensureTransitionRules` during a two-manifest run
(`ensureActiveRules` on a clean world consumes call indices 0 to 7). -/
def wPairFault8 : World := { wPair with faults := [8] }

/-- The world `wPair` with injected faults at call indices 8 and 10: the transition
step fails at call 8 and the rollback `ensureActiveRules` fails at call
10 (its jump-rule append). -/
def wPairFault810 : World := { wPair with faults := [8, 10] }

/-- A world whose dedicated chain already exists and holds stale content:
an established-scoped transition rule, an unrelated leftover rule, and a
duplicate pair of one desired offset-0 rule. -/
def wDirty : World :=
  { ipt := { prerouting := [jumpKey], output := [],
             apiChainExists := true,
             apiRules := [ruleKey (establishedDNATRule 6443 6443),
                          "-m tcp -p tcp --dport 9999 -j DNAT --to-destination :9999",
                          ruleKey (dnatRule 6443 6443),
                          ruleKey (dnatRule 6443 6443)] }
    files := [], warnings := [], elog := [], calls := 0, faults := [] }

/-- The chain state after resetting `wDirty` with the offset-0 map. -/
def wDirtyReset : World := (ensureActiveRules (portMapForOffset 0) wDirty).world

/-- The state after the initial `ensureActiveRules` of the fault-8 run. -/
def wPF8a : World := (ensureActiveRules (activePortMap mRev3.Port) wPairFault8).world

/-- The state after the failing transition step of the fault-8 run. -/
def wPF8b : World :=
  (ensureTransitionRules (activePortMap mRev3.Port) (NextPortMap mRev3.Port) wPF8a).world

/-- The state after the successful rollback of the fault-8 run. -/
def wPF8c : World := (ensureActiveRules (activePortMap mRev3.Port) wPF8b).world

/-- The desired rules appended one by one to an initial chain content, as
`AppendUnique` leaves them: each key appended only when absent. -/
def appAll (c : List String) : List String → List String
  | [] => c
  | k :: ks => appAll (if c.contains k then c else c ++ [k]) ks

/-- The pure effect of the deletion loop on the chain: walk `rules` and
erase (one occurrence of) every entry whose key is not desired. -/
def delExtra (keys : List String) : List String → List String → List String
  | [], c => c
  | r :: rest, c =>
    if keys.contains r then delExtra keys rest c
    else delExtra keys rest (c.erase r)

/-- The parts of the world an iptables reconciliation never touches:
files on disk, both logs, and the fault schedule. -/
def Frame (w w2 : World) : Prop :=
  w2.files = w.files ∧ w2.warnings = w.warnings ∧ w2.elog = w.elog ∧ w2.faults = w.faults

theorem Frame.refl (w : World) : Frame w w :=
  ⟨rfl, rfl, rfl, rfl⟩

theorem Frame.trans {w1 w2 w3 : World} (h : Frame w1 w2) (h2 : Frame w2 w3) :
    Frame w1 w3 :=
  ⟨h2.1.trans h.1, h2.2.1.trans h.2.1, h2.2.2.1.trans h.2.2.1, h2.2.2.2.trans h.2.2.2⟩

theorem frame_bump (w : World) : Frame w (bump w) :=
  ⟨rfl, rfl, rfl, rfl⟩

theorem chainExistsApi_ok {w : World} {b : Bool} {w2 : World}
    (h : chainExistsApi w = .ok b w2) :
    b = w.ipt.apiChainExists ∧ w2.ipt = w.ipt ∧ Frame w w2 := by
  unfold chainExistsApi at h
  split at h
  · exact absurd h (by simp)
  · cases h
    exact ⟨rfl, rfl, frame_bump w⟩

theorem newChainApi_ok {w w2 : World} (h : newChainApi w = .ok () w2) :
    w2.ipt.apiChainExists = true ∧ w2.ipt.apiRules = [] ∧ Frame w w2 := by
  unfold newChainApi at h
  split at h
  · exact absurd h (by simp)
  · split at h
    · exact absurd h (by simp)
    · cases h
      exact ⟨rfl, rfl, rfl, rfl, rfl, rfl⟩

theorem appendUnique_builtin_ok {c : Chain} {k : String} {w w2 : World}
    (hc : c = Chain.prerouting ∨ c = Chain.output)
    (h : appendUnique c k w = .ok () w2) :
    w2.ipt.apiChainExists = w.ipt.apiChainExists ∧
      w2.ipt.apiRules = w.ipt.apiRules ∧ Frame w w2 := by
  unfold appendUnique at h
  split at h
  · exact absurd h (by simp)
  · rcases hc with hc | hc <;> subst hc <;>
      simp only [IptState.rulesOf] at h <;> cases h <;>
      exact ⟨rfl, rfl, rfl, rfl, rfl, rfl⟩

theorem appendUnique_api_ok {k : String} {w w2 : World}
    (h : appendUnique .api k w = .ok () w2) :
    w.ipt.apiChainExists = true ∧ w2.ipt.apiChainExists = true ∧
      w2.ipt.apiRules =
        (if w.ipt.apiRules.contains k then w.ipt.apiRules else w.ipt.apiRules ++ [k]) ∧
      Frame w w2 := by
  unfold appendUnique at h
  by_cases hf : hitFault w = true
  · simp [hf] at h
  · cases hex : w.ipt.apiChainExists with
    | false => simp [hf, IptState.rulesOf, hex] at h
    | true =>
      simp only [hf, if_false, IptState.rulesOf, hex, if_true, Bool.false_eq_true] at h
      cases h
      exact ⟨rfl, hex, rfl, rfl, rfl, rfl, rfl⟩

theorem listApi_ok {w : World} {rs : List String} {w2 : World}
    (h : listApi w = .ok rs w2) :
    rs = w.ipt.apiRules ∧ w.ipt.apiChainExists = true ∧ w2.ipt = w.ipt ∧ Frame w w2 := by
  unfold listApi at h
  by_cases hf : hitFault w = true
  · simp [hf] at h
  · cases hex : w.ipt.apiChainExists with
    | false => simp [hf, IptState.rulesOf, hex] at h
    | true =>
      simp only [hf, if_false, IptState.rulesOf, hex, if_true, Bool.false_eq_true] at h
      cases h
      exact ⟨rfl, rfl, rfl, frame_bump w⟩

theorem deleteApi_ok {r : String} {w w2 : World} (h : deleteApi r w = .ok () w2) :
    r ∈ w.ipt.apiRules ∧
      w2.ipt.apiRules = w.ipt.apiRules.erase r ∧
      w2.ipt.apiChainExists = w.ipt.apiChainExists ∧ Frame w w2 := by
  unfold deleteApi at h
  by_cases hf : hitFault w = true
  · simp [hf] at h
  · cases hex : w.ipt.apiChainExists with
    | false => simp [hf, IptState.rulesOf, hex] at h
    | true =>
      simp only [hf, if_false, IptState.rulesOf, hex, if_true, Bool.false_eq_true] at h
      by_cases hmem : r ∈ w.ipt.apiRules
      · rw [if_pos (by simpa using hmem)] at h
        cases h
        exact ⟨hmem, rfl, hex, rfl, rfl, rfl, rfl⟩
      · rw [if_neg (by simpa using hmem)] at h
        exact absurd h (by simp)

theorem appendRules_ok {keys : List String} {w w2 : World}
    (h : appendRules keys w = .ok () w2) :
    w2.ipt.apiRules = appAll w.ipt.apiRules keys ∧
      w2.ipt.apiChainExists = w.ipt.apiChainExists ∧ Frame w w2 := by
  induction keys generalizing w with
  | nil =>
    cases h
    exact ⟨rfl, rfl, Frame.refl _⟩
  | cons k rest ih =>
    unfold appendRules at h
    cases ha : appendUnique .api k w with
    | err e w1 => rw [ha] at h; exact absurd h (by simp [Res.bind])
    | ok a w1 =>
      rw [ha] at h
      simp only [Res.bind] at h
      obtain ⟨hex, hex1, hrules, hfr⟩ := appendUnique_api_ok ha
      obtain ⟨ih1, ih2, ihfr⟩ := ih h
      refine ⟨?_, ?_, Frame.trans hfr ihfr⟩
      · rw [ih1, hrules, appAll]
      · rw [ih2, hex1, hex]

theorem deleteExtraRules_ok {keys rules : List String} {w w2 : World}
    (h : deleteExtraRules keys rules w = .ok () w2) :
    w2.ipt.apiRules = delExtra keys rules w.ipt.apiRules ∧
      w2.ipt.apiChainExists = w.ipt.apiChainExists ∧ Frame w w2 := by
  induction rules generalizing w with
  | nil =>
    cases h
    exact ⟨rfl, rfl, Frame.refl _⟩
  | cons r rest ih =>
    unfold deleteExtraRules at h
    by_cases hk : keys.contains r = true
    · rw [if_pos hk] at h
      obtain ⟨ih1, ih2, ihfr⟩ := ih h
      refine ⟨?_, ih2, ihfr⟩
      rw [ih1, delExtra, if_pos hk]
    · rw [if_neg hk] at h
      cases hd : deleteApi r w with
      | err e w1 => rw [hd] at h; exact absurd h (by simp [Res.bind])
      | ok a w1 =>
        rw [hd] at h
        simp only [Res.bind] at h
        obtain ⟨hmem, hrules, hex, hfr⟩ := deleteApi_ok hd
        obtain ⟨ih1, ih2, ihfr⟩ := ih h
        refine ⟨?_, by rw [ih2, hex], Frame.trans hfr ihfr⟩
        rw [ih1, hrules, delExtra, if_neg hk]

theorem mem_appAll {x : String} {keys : List String} :
    ∀ {c : List String}, x ∈ appAll c keys ↔ x ∈ c ∨ x ∈ keys := by
  induction keys with
  | nil => intro c; simp [appAll]
  | cons k rest ih =>
    intro c
    rw [appAll]
    by_cases hc : c.contains k = true
    · rw [if_pos hc, ih]
      have : k ∈ c := by simpa using hc
      constructor
      · rintro (hx | hx)
        · exact Or.inl hx
        · exact Or.inr (List.mem_cons_of_mem k hx)
      · rintro (hx | hx)
        · exact Or.inl hx
        · rcases List.mem_cons.mp hx with rfl | hx
          · exact Or.inl this
          · exact Or.inr hx
    · rw [if_neg hc, ih]
      simp [List.mem_append, List.mem_cons, or_assoc]

theorem filter_erase_of_neg {p : String → Bool} {r : String} (hp : p r = false) :
    ∀ c : List String, (c.erase r).filter p = c.filter p := by
  intro c
  induction c with
  | nil => rfl
  | cons a as ih =>
    rw [List.erase_cons]
    by_cases ha : a = r
    · subst ha
      rw [if_pos (by simp), List.filter_cons, hp]
      simp
    · rw [if_neg (by simpa using ha), List.filter_cons, List.filter_cons]
      cases hpa : p a <;> simp [hpa, ih]

theorem delExtra_eq_filter (keys : List String) :
    ∀ rules chain : List String,
      (∀ v, keys.contains v = false → rules.count v = chain.count v) →
      (∀ v, rules.count v ≤ chain.count v) →
      delExtra keys rules chain = chain.filter (fun r => keys.contains r) := by
  intro rules
  induction rules with
  | nil =>
    intro chain hfull _
    rw [delExtra]
    refine (List.filter_eq_self.mpr ?_).symm
    intro a ha
    by_contra hk
    have h0 := hfull a (by simpa using hk)
    rw [List.count_nil] at h0
    exact absurd (List.count_pos_iff.mpr ha) (by omega)
  | cons r rest ih =>
    intro chain hfull hle
    rw [delExtra]
    by_cases hk : keys.contains r = true
    · rw [if_pos hk]
      refine ih chain ?_ ?_
      · intro v hv
        have hvr : ¬((r == v) = true) := by
          simp only [beq_iff_eq]
          intro hrv
          rw [hrv, hv] at hk
          exact absurd hk (by simp)
        have := hfull v hv
        rwa [List.count_cons, if_neg hvr, Nat.add_zero] at this
      · intro v
        calc rest.count v ≤ (r :: rest).count v := by
              rw [List.count_cons]; omega
          _ ≤ chain.count v := hle v
    · rw [if_neg hk]
      have hkf : keys.contains r = false := by simpa using hk
      have hrc : (r :: rest).count r = chain.count r := hfull r hkf
      rw [List.count_cons_self] at hrc
      have hrmem : r ∈ chain := List.count_pos_iff.mp (by omega)
      rw [ih (chain.erase r) ?_ ?_]
      · exact filter_erase_of_neg hkf chain
      · intro v hv
        by_cases hvr : v = r
        · subst hvr
          rw [List.count_erase_self]
          omega
        · rw [List.count_erase_of_ne hvr]
          have := hfull v hv
          rwa [List.count_cons, if_neg (by simpa using Ne.symm hvr), Nat.add_zero] at this
      · intro v
        by_cases hvr : v = r
        · subst hvr
          rw [List.count_erase_self]
          omega
        · rw [List.count_erase_of_ne hvr]
          have := hle v
          rw [List.count_cons, if_neg (by simpa using Ne.symm hvr), Nat.add_zero] at this
          exact this

theorem delExtra_self (keys chain : List String) :
    delExtra keys chain chain = chain.filter (fun r => keys.contains r) :=
  delExtra_eq_filter keys chain chain (fun _ _ => rfl) (fun _ => Nat.le_refl _)

theorem nodup_appAll {keys : List String} :
    ∀ {c : List String}, c.Nodup → (appAll c keys).Nodup := by
  induction keys with
  | nil => intro c hc; exact hc
  | cons k rest ih =>
    intro c hc
    rw [appAll]
    by_cases hcont : c.contains k = true
    · rw [if_pos hcont]; exact ih hc
    · rw [if_neg hcont]
      refine ih ?_
      rw [List.nodup_append]
      refine ⟨hc, List.nodup_singleton k, ?_⟩
      intro a ha hk
      rcases List.mem_singleton.mp hk with rfl
      exact hcont (by simpa using ha)

/-- What a successful `ensureActiveRules` guarantees: the dedicated chain
exists, its rules are precisely (membership-wise) the unconditional DNAT
rules of the port map, no duplicate entries are introduced, and nothing
outside the iptables state is touched. -/
theorem ensureActiveRules_spec {pm : List (Nat × Nat)} {w w2 : World}
    (h : ensureActiveRules pm w = .ok () w2) :
    (∀ x, x ∈ w2.ipt.apiRules ↔ x ∈ dnatKeys pm) ∧
      w2.ipt.apiChainExists = true ∧
      (w.ipt.apiRules.Nodup → w2.ipt.apiRules.Nodup) ∧ Frame w w2 := by
  unfold ensureActiveRules at h
  cases hce : chainExistsApi w with
  | err e w1 => rw [hce] at h; exact absurd h (by simp [Res.bind])
  | ok ex w1 =>
    rw [hce] at h
    simp only [Res.bind] at h
    obtain ⟨hex0, hipt1, hfr1⟩ := chainExistsApi_ok hce
    -- after the chain-existence step: a state u with the chain present,
    -- whose rules are either the original ones or empty
    have hstep :
        ∀ u : World,
          u.ipt.apiChainExists = true →
          (u.ipt.apiRules = w.ipt.apiRules ∨ u.ipt.apiRules = []) →
          Frame w u →
          ((appendUnique .prerouting jumpKey u).bind fun _ w =>
            (appendUnique .output jumpKey w).bind fun _ w =>
            (appendRules (dnatKeys pm) w).bind fun _ w =>
            (listApi w).bind fun chainRules w =>
            deleteExtraRules (dnatKeys pm) chainRules w) = .ok () w2 →
          (∀ x, x ∈ w2.ipt.apiRules ↔ x ∈ dnatKeys pm) ∧
            w2.ipt.apiChainExists = true ∧
            (w.ipt.apiRules.Nodup → w2.ipt.apiRules.Nodup) ∧ Frame w w2 := by
      intro u hexu hchain hfru hrun
      cases hp : appendUnique .prerouting jumpKey u with
      | err e v => rw [hp] at hrun; exact absurd hrun (by simp [Res.bind])
      | ok a v =>
        rw [hp] at hrun
        simp only [Res.bind] at hrun
        obtain ⟨hexp, hrp, hfrp⟩ := appendUnique_builtin_ok (Or.inl rfl) hp
        cases ho : appendUnique .output jumpKey v with
        | err e v2 => rw [ho] at hrun; exact absurd hrun (by simp [Res.bind])
        | ok a v2 =>
          rw [ho] at hrun
          simp only [Res.bind] at hrun
          obtain ⟨hexo, hro, hfro⟩ := appendUnique_builtin_ok (Or.inr rfl) ho
          cases hap : appendRules (dnatKeys pm) v2 with
          | err e v3 => rw [hap] at hrun; exact absurd hrun (by simp [Res.bind])
          | ok a v3 =>
            rw [hap] at hrun
            simp only [Res.bind] at hrun
            obtain ⟨hra, hexa, hfra⟩ := appendRules_ok hap
            cases hl : listApi v3 with
            | err e v4 => rw [hl] at hrun; exact absurd hrun (by simp [Res.bind])
            | ok rs v4 =>
              rw [hl] at hrun
              simp only [Res.bind] at hrun
              obtain ⟨hrs, hexl, hiptl, hfrl⟩ := listApi_ok hl
              obtain ⟨hrd, hexd, hfrd⟩ := deleteExtraRules_ok hrun
              have hchain4 : v4.ipt.apiRules = v3.ipt.apiRules := by rw [hiptl]
              have hfinal : w2.ipt.apiRules =
                  (appAll v2.ipt.apiRules (dnatKeys pm)).filter
                    (fun r => (dnatKeys pm).contains r) := by
                rw [hrd, hrs, hchain4, hra, delExtra_self]
              have hv2chain : v2.ipt.apiRules = u.ipt.apiRules := by rw [hro, hrp]
              refine ⟨?_, ?_, ?_, ?_⟩
              · intro x
                rw [hfinal, List.mem_filter, mem_appAll]
                constructor
                · rintro ⟨_, hx⟩
                  simpa using hx
                · intro hx
                  exact ⟨Or.inr hx, by simpa using hx⟩
              · rw [hexd, hiptl, hexa, hexo, hexp, hexu]
              · intro hnd
                rw [hfinal]
                refine List.Nodup.filter _ (nodup_appAll ?_)
                rw [hv2chain]
                rcases hchain with hc | hc <;> rw [hc]
                · exact hnd
                · exact List.nodup_nil
              · exact Frame.trans hfru
                  (Frame.trans hfrp (Frame.trans hfro (Frame.trans hfra
                    (Frame.trans hfrl hfrd))))
    cases ex with
    | true =>
      rw [if_pos rfl] at h
      simp only [Res.bind] at h
      refine hstep w1 ?_ (Or.inl ?_) hfr1 h
      · rw [hipt1, ← hex0]
      · rw [hipt1]
    | false =>
      rw [if_neg (by simp)] at h
      cases hnc : newChainApi w1 with
      | err e v => rw [hnc] at h; exact absurd h (by simp [Res.bind])
      | ok a v =>
        rw [hnc] at h
        simp only [Res.bind] at h
        obtain ⟨hexn, hrn, hfrn⟩ := newChainApi_ok hnc
        exact hstep v hexn (Or.inr hrn) (Frame.trans hfr1 hfrn) h

/-- What a successful `ensureTransitionRules` guarantees: the rules of
the chain are precisely (membership-wise) the union of established-scoped
active rules and unconditional next rules, the chain existed and still
exists, no duplicates are introduced, and nothing outside the iptables
state is touched. -/
theorem ensureTransitionRules_spec {aM nM : List (Nat × Nat)} {w w2 : World}
    (h : ensureTransitionRules aM nM w = .ok () w2) :
    (∀ x, x ∈ w2.ipt.apiRules ↔ x ∈ transitionKeys aM nM) ∧
      w2.ipt.apiChainExists = true ∧
      (w.ipt.apiRules.Nodup → w2.ipt.apiRules.Nodup) ∧ Frame w w2 := by
  unfold ensureTransitionRules at h
  cases hap : appendRules (transitionKeys aM nM) w with
  | err e v => rw [hap] at h; exact absurd h (by simp [Res.bind])
  | ok a v =>
    rw [hap] at h
    simp only [Res.bind] at h
    obtain ⟨hra, hexa, hfra⟩ := appendRules_ok hap
    cases hl : listApi v with
    | err e v2 => rw [hl] at h; exact absurd h (by simp [Res.bind])
    | ok rs v2 =>
      rw [hl] at h
      simp only [Res.bind] at h
      obtain ⟨hrs, hexl, hiptl, hfrl⟩ := listApi_ok hl
      obtain ⟨hrd, hexd, hfrd⟩ := deleteExtraRules_ok h
      have hfinal : w2.ipt.apiRules =
          (appAll w.ipt.apiRules (transitionKeys aM nM)).filter
            (fun r => (transitionKeys aM nM).contains r) := by
        rw [hrd, hrs]
        rw [show v2.ipt.apiRules = v.ipt.apiRules from by rw [hiptl], hra, delExtra_self]
      refine ⟨?_, ?_, ?_, ?_⟩
      · intro x
        rw [hfinal, List.mem_filter, mem_appAll]
        constructor
        · rintro ⟨_, hx⟩
          simpa using hx
        · intro hx
          exact ⟨Or.inr hx, by simpa using hx⟩
      · rw [hexd, hiptl]
        exact hexl
      · intro hnd
        rw [hfinal]
        exact List.Nodup.filter _ (nodup_appAll hnd)
      · exact Frame.trans hfra (Frame.trans hfrl hfrd)

theorem hitFault_of_nofault {w : World} (h : w.faults = []) : hitFault w = false := by
  rw [hitFault, h]
  rfl

theorem appendUnique_api_nofault {k : String} {w : World}
    (hfa : w.faults = []) (hex : w.ipt.apiChainExists = true) :
    ∃ w2, appendUnique .api k w = .ok () w2 := by
  refine ⟨{ bump w with ipt := (w.ipt.setRules Chain.api
    (if w.ipt.apiRules.contains k then w.ipt.apiRules else w.ipt.apiRules ++ [k])) }, ?_⟩
  unfold appendUnique
  rw [if_neg (by rw [hitFault_of_nofault hfa]; simp)]
  simp only [IptState.rulesOf, hex, if_true]

theorem appendRules_nofault (keys : List String) :
    ∀ {w : World}, w.faults = [] → w.ipt.apiChainExists = true →
      ∃ w2, appendRules keys w = .ok () w2 := by
  induction keys with
  | nil => intro w _ _; exact ⟨w, rfl⟩
  | cons k rest ih =>
    intro w hfa hex
    obtain ⟨w1, hw1⟩ := appendUnique_api_nofault (k := k) hfa hex
    obtain ⟨hex0, hex1, _, hfr⟩ := appendUnique_api_ok hw1
    obtain ⟨w2, hw2⟩ := ih (by rw [hfr.2.2.2, hfa]) hex1
    exact ⟨w2, by rw [appendRules, hw1, Res.bind, hw2]⟩

theorem listApi_nofault {w : World}
    (hfa : w.faults = []) (hex : w.ipt.apiChainExists = true) :
    listApi w = .ok w.ipt.apiRules (bump w) := by
  unfold listApi
  rw [if_neg (by rw [hitFault_of_nofault hfa]; simp)]
  simp only [IptState.rulesOf, hex, if_true]

theorem deleteExtraRules_nofault {keys : List String} {rules : List String} :
    ∀ {w : World}, w.faults = [] → w.ipt.apiChainExists = true →
      (∀ v, rules.count v ≤ w.ipt.apiRules.count v) →
      ∃ w2, deleteExtraRules keys rules w = .ok () w2 := by
  induction rules with
  | nil => intro w _ _ _; exact ⟨w, rfl⟩
  | cons r rest ih =>
    intro w hfa hex hcnt
    rw [deleteExtraRules]
    by_cases hk : keys.contains r = true
    · rw [if_pos hk]
      refine ih hfa hex ?_
      intro v
      calc rest.count v ≤ (r :: rest).count v := by rw [List.count_cons]; omega
        _ ≤ w.ipt.apiRules.count v := hcnt v
    · rw [if_neg hk]
      have hrmem : r ∈ w.ipt.apiRules := by
        have := hcnt r
        rw [List.count_cons_self] at this
        exact List.count_pos_iff.mp (by omega)
      have hdel : deleteApi r w =
          .ok () { bump w with ipt := (w.ipt.setRules Chain.api (w.ipt.apiRules.erase r)) } := by
        unfold deleteApi
        rw [if_neg (by rw [hitFault_of_nofault hfa]; simp)]
        simp only [IptState.rulesOf, hex, if_true]
        rw [if_pos (by simpa using hrmem)]
      rw [hdel, Res.bind]
      refine ih (w := { bump w with ipt := (w.ipt.setRules Chain.api (w.ipt.apiRules.erase r)) })
        (by simpa [bump] using hfa) (by simpa [IptState.setRules, bump] using hex) ?_
      intro v
      simp only [IptState.setRules]
      by_cases hvr : v = r
      · subst hvr
        have := hcnt v
        rw [List.count_cons_self] at this
        rw [List.count_erase_self]
        omega
      · rw [List.count_erase_of_ne hvr]
        have := hcnt v
        rw [List.count_cons, if_neg (by simpa using Ne.symm hvr), Nat.add_zero] at this
        exact this

theorem ensureActiveRules_nofault {pm : List (Nat × Nat)} {w : World}
    (hfa : w.faults = []) :
    ∃ w2, ensureActiveRules pm w = .ok () w2 := by
  unfold ensureActiveRules
  have hce : chainExistsApi w = .ok w.ipt.apiChainExists (bump w) := by
    unfold chainExistsApi
    rw [if_neg (by rw [hitFault_of_nofault hfa]; simp)]
  rw [hce, Res.bind]
  have hrest :
      ∀ u : World, u.faults = [] → u.ipt.apiChainExists = true →
        ∃ w2,
          ((appendUnique .prerouting jumpKey u).bind fun _ w =>
            (appendUnique .output jumpKey w).bind fun _ w =>
            (appendRules (dnatKeys pm) w).bind fun _ w =>
            (listApi w).bind fun chainRules w =>
            deleteExtraRules (dnatKeys pm) chainRules w) = .ok () w2 := by
    intro u hufa huex
    have hp : appendUnique .prerouting jumpKey u =
        .ok () { bump u with ipt :=
          (u.ipt.setRules Chain.prerouting
            (if u.ipt.prerouting.contains jumpKey then u.ipt.prerouting
             else u.ipt.prerouting ++ [jumpKey])) } := by
      unfold appendUnique
      rw [if_neg (by rw [hitFault_of_nofault hufa]; simp)]
      simp only [IptState.rulesOf]
    rw [hp, Res.bind]
    set u1 := { bump u with ipt :=
      (u.ipt.setRules Chain.prerouting
        (if u.ipt.prerouting.contains jumpKey then u.ipt.prerouting
         else u.ipt.prerouting ++ [jumpKey])) } with hu1
    have hu1fa : u1.faults = [] := by simpa [hu1, bump] using hufa
    have hu1ex : u1.ipt.apiChainExists = true := by
      simpa [hu1, bump, IptState.setRules] using huex
    have ho : appendUnique .output jumpKey u1 =
        .ok () { bump u1 with ipt :=
          (u1.ipt.setRules Chain.output
            (if u1.ipt.output.contains jumpKey then u1.ipt.output
             else u1.ipt.output ++ [jumpKey])) } := by
      unfold appendUnique
      rw [if_neg (by rw [hitFault_of_nofault hu1fa]; simp)]
      simp only [IptState.rulesOf]
    rw [ho, Res.bind]
    set u2 := { bump u1 with ipt :=
      (u1.ipt.setRules Chain.output
        (if u1.ipt.output.contains jumpKey then u1.ipt.output
         else u1.ipt.output ++ [jumpKey])) } with hu2
    have hu2fa : u2.faults = [] := by simpa [hu2, bump] using hu1fa
    have hu2ex : u2.ipt.apiChainExists = true := by
      simpa [hu2, bump, IptState.setRules] using hu1ex
    obtain ⟨u3, hu3⟩ := appendRules_nofault (dnatKeys pm) hu2fa hu2ex
    rw [hu3, Res.bind]
    obtain ⟨_, hex3, hfr3⟩ := appendRules_ok hu3
    have hu3fa : u3.faults = [] := by rw [hfr3.2.2.2, hu2fa]
    have hu3ex : u3.ipt.apiChainExists = true := by rw [hex3, hu2ex]
    rw [listApi_nofault hu3fa hu3ex, Res.bind]
    refine deleteExtraRules_nofault (by simpa [bump] using hu3fa)
      (by simpa [bump] using hu3ex) ?_
    intro v
    simp [bump]
  cases hex : w.ipt.apiChainExists with
  | true =>
    rw [if_pos rfl, Res.bind]
    exact hrest (bump w) (by simpa [bump] using hfa) (by simpa [bump] using hex)
  | false =>
    rw [if_neg (by simp)]
    have hnc : newChainApi (bump w) =
        .ok () { bump (bump w) with ipt :=
          { (bump w).ipt with apiChainExists := true, apiRules := [] } } := by
      unfold newChainApi
      rw [if_neg (by rw [hitFault_of_nofault (by simpa [bump] using hfa)]; simp)]
      rw [if_neg (by simpa [bump] using hex)]
    rw [hnc, Res.bind]
    exact hrest _ (by simpa [bump] using hfa) rfl

theorem ensureTransitionRules_nofault {aM nM : List (Nat × Nat)} {w : World}
    (hfa : w.faults = []) (hex : w.ipt.apiChainExists = true) :
    ∃ w2, ensureTransitionRules aM nM w = .ok () w2 := by
  unfold ensureTransitionRules
  obtain ⟨u, hu⟩ := appendRules_nofault (transitionKeys aM nM) hfa hex
  rw [hu, Res.bind]
  obtain ⟨_, hexu, hfru⟩ := appendRules_ok hu
  have hufa : u.faults = [] := by rw [hfru.2.2.2, hfa]
  have huex : u.ipt.apiChainExists = true := by rw [hexu, hex]
  rw [listApi_nofault hufa huex, Res.bind]
  refine deleteExtraRules_nofault (by simpa [bump] using hufa)
    (by simpa [bump] using huex) ?_
  intro v
  simp [bump]

theorem frame_chainExistsApi (w : World) : Frame w ((chainExistsApi w).world) := by
  unfold chainExistsApi
  split <;> exact ⟨rfl, rfl, rfl, rfl⟩

theorem frame_newChainApi (w : World) : Frame w ((newChainApi w).world) := by
  unfold newChainApi
  split
  · exact ⟨rfl, rfl, rfl, rfl⟩
  · split <;> exact ⟨rfl, rfl, rfl, rfl⟩

theorem frame_appendUnique (c : Chain) (k : String) (w : World) :
    Frame w ((appendUnique c k w).world) := by
  unfold appendUnique
  split
  · exact ⟨rfl, rfl, rfl, rfl⟩
  · cases c <;> simp only [IptState.rulesOf]
    · exact ⟨rfl, rfl, rfl, rfl⟩
    · exact ⟨rfl, rfl, rfl, rfl⟩
    · split <;> exact ⟨rfl, rfl, rfl, rfl⟩

theorem frame_listApi (w : World) : Frame w ((listApi w).world) := by
  unfold listApi
  split
  · exact ⟨rfl, rfl, rfl, rfl⟩
  · split <;> exact ⟨rfl, rfl, rfl, rfl⟩

theorem frame_deleteApi (r : String) (w : World) : Frame w ((deleteApi r w).world) := by
  unfold deleteApi
  split
  · exact ⟨rfl, rfl, rfl, rfl⟩
  · split
    · exact ⟨rfl, rfl, rfl, rfl⟩
    · split <;> exact ⟨rfl, rfl, rfl, rfl⟩

theorem frame_appendRules (keys : List String) :
    ∀ w : World, Frame w ((appendRules keys w).world) := by
  induction keys with
  | nil => intro w; exact Frame.refl w
  | cons k rest ih =>
    intro w
    rw [appendRules]
    cases ha : appendUnique .api k w with
    | err e w1 =>
      have := frame_appendUnique .api k w
      rw [ha] at this
      exact this
    | ok a w1 =>
      have hfr := frame_appendUnique .api k w
      rw [ha] at hfr
      simp only [Res.bind]
      exact Frame.trans hfr (ih w1)

theorem frame_deleteExtraRules (keys : List String) (rules : List String) :
    ∀ w : World, Frame w ((deleteExtraRules keys rules w).world) := by
  induction rules with
  | nil => intro w; exact Frame.refl w
  | cons r rest ih =>
    intro w
    rw [deleteExtraRules]
    by_cases hk : keys.contains r = true
    · rw [if_pos hk]; exact ih w
    · rw [if_neg hk]
      cases hd : deleteApi r w with
      | err e w1 =>
        have := frame_deleteApi r w
        rw [hd] at this
        exact this
      | ok a w1 =>
        have hfr := frame_deleteApi r w
        rw [hd] at hfr
        simp only [Res.bind]
        exact Frame.trans hfr (ih w1)

theorem frame_ensureActiveRules (pm : List (Nat × Nat)) (w : World) :
    Frame w ((ensureActiveRules pm w).world) := by
  unfold ensureActiveRules
  cases hce : chainExistsApi w with
  | err e w1 =>
    have := frame_chainExistsApi w
    rw [hce] at this
    exact this
  | ok ex w1 =>
    have hfr1 := frame_chainExistsApi w
    rw [hce] at hfr1
    simp only [Res.bind]
    have htail :
        ∀ u : World, Frame w u →
          Frame w (((appendUnique .prerouting jumpKey u).bind fun _ w =>
            (appendUnique .output jumpKey w).bind fun _ w =>
            (appendRules (dnatKeys pm) w).bind fun _ w =>
            (listApi w).bind fun chainRules w =>
            deleteExtraRules (dnatKeys pm) chainRules w).world) := by
      intro u hu
      cases hp : appendUnique .prerouting jumpKey u with
      | err e v =>
        have := frame_appendUnique .prerouting jumpKey u
        rw [hp] at this
        exact Frame.trans hu this
      | ok a v =>
        have hfrp := frame_appendUnique .prerouting jumpKey u
        rw [hp] at hfrp
        simp only [Res.bind]
        cases ho : appendUnique .output jumpKey v with
        | err e v2 =>
          have := frame_appendUnique .output jumpKey v
          rw [ho] at this
          exact Frame.trans hu (Frame.trans hfrp this)
        | ok a v2 =>
          have hfro := frame_appendUnique .output jumpKey v
          rw [ho] at hfro
          simp only [Res.bind]
          cases hap : appendRules (dnatKeys pm) v2 with
          | err e v3 =>
            have := frame_appendRules (dnatKeys pm) v2
            rw [hap] at this
            exact Frame.trans hu (Frame.trans hfrp (Frame.trans hfro this))
          | ok a v3 =>
            have hfra := frame_appendRules (dnatKeys pm) v2
            rw [hap] at hfra
            simp only [Res.bind]
            cases hl : listApi v3 with
            | err e v4 =>
              have := frame_listApi v3
              rw [hl] at this
              exact Frame.trans hu (Frame.trans hfrp (Frame.trans hfro
                (Frame.trans hfra this)))
            | ok rs v4 =>
              have hfrl := frame_listApi v3
              rw [hl] at hfrl
              simp only [Res.bind]
              exact Frame.trans hu (Frame.trans hfrp (Frame.trans hfro
                (Frame.trans hfra (Frame.trans hfrl
                  (frame_deleteExtraRules (dnatKeys pm) rs v4)))))
    cases ex with
    | true =>
      rw [if_pos rfl]
      simp only [Res.bind]
      exact htail w1 hfr1
    | false =>
      rw [if_neg (by simp)]
      cases hnc : newChainApi w1 with
      | err e v =>
        have := frame_newChainApi w1
        rw [hnc] at this
        exact Frame.trans hfr1 this
      | ok a v =>
        have hfrn := frame_newChainApi w1
        rw [hnc] at hfrn
        simp only [Res.bind]
        exact htail v (Frame.trans hfr1 hfrn)

theorem frame_ensureTransitionRules (aM nM : List (Nat × Nat)) (w : World) :
    Frame w ((ensureTransitionRules aM nM w).world) := by
  unfold ensureTransitionRules
  cases hap : appendRules (transitionKeys aM nM) w with
  | err e v =>
    have := frame_appendRules (transitionKeys aM nM) w
    rw [hap] at this
    exact this
  | ok a v =>
    have hfra := frame_appendRules (transitionKeys aM nM) w
    rw [hap] at hfra
    simp only [Res.bind]
    cases hl : listApi v with
    | err e v2 =>
      have := frame_listApi v
      rw [hl] at this
      exact Frame.trans hfra this
    | ok rs v2 =>
      have hfrl := frame_listApi v
      rw [hl] at hfrl
      simp only [Res.bind]
      exact Frame.trans hfra (Frame.trans hfrl
        (frame_deleteExtraRules (transitionKeys aM nM) rs v2))

theorem activeManifestOf_pair {m1 m2 : StaticPodManifest}
    (hrev : m1.Revision < m2.Revision) : activeManifestOf m1 [m2] = m1 := by
  unfold activeManifestOf
  rw [List.foldl_cons, List.foldl_nil, if_neg (Nat.not_lt.mpr (Nat.le_of_lt hrev))]

/-- Under a two-manifest scan whose first manifest has the lower revision
and whose initial `ensureActiveRules` succeeds, `gracefulRollout` reduces
to the transition tail of cmd.go (the readiness probe is the stub and
consumes nothing). -/
theorem gracefulRollout_two_eq {m1 m2 : StaticPodManifest} {w w1 : World}
    (hrev : m1.Revision < m2.Revision)
    (h1 : ensureActiveRules (activePortMap m1.Port) w = .ok () w1) :
    gracefulRollout [m1, m2] w =
      match ensureTransitionRules (activePortMap m1.Port) (NextPortMap m1.Port) w1 with
      | .err e w =>
        (match ensureActiveRules (activePortMap m1.Port) w with
         | .err e2 w => .err e2 (logError e2 w)
         | .ok _ w => .err e w)
      | .ok _ w =>
        match osRemove m1.Filename w with
        | .err e w =>
          (match ensureActiveRules (activePortMap m1.Port) w with
           | .err e2 w => .err e2 (logError e2 w)
           | .ok _ w => .err e w)
        | .ok _ w => ensureActiveRules (NextPortMap m1.Port) w := by
  simp only [gracefulRollout, List.length_cons, List.length_nil]
  rw [activeManifestOf_pair hrev]
  rw [if_neg (by simp)]
  rw [h1, Res.bind]
  rw [if_neg (by simp)]
  rfl

/-- C1: for every port map (one unconditional DNAT rule per canonical port
6443, 6080, 17697) and every prior chain content, a successful
`ensureActiveRules` leaves the chain containing exactly the rules implied
by the map: a rule is in the chain if and only if it is one of the three
desired DNAT rules (so no extra rule survives — in particular no
established-scoped transition rule — and none is missing), and no
duplicate entries are introduced. -/
theorem ensureActiveRules_complete_reset (offset : Nat) {w w2 : World}
    (h : ensureActiveRules (portMapForOffset offset) w = .ok () w2) :
    (∀ r, r ∈ w2.ipt.apiRules ↔
        r ∈ [ruleKey (dnatRule 6443 (6443 + offset)),
             ruleKey (dnatRule 6080 (6080 + offset)),
             ruleKey (dnatRule 17697 (17697 + offset))]) ∧
      (w.ipt.apiRules.Nodup → w2.ipt.apiRules.Nodup) :=
  ⟨(ensureActiveRules_spec h).1, (ensureActiveRules_spec h).2.2.1⟩

/-- Witness for C1: a run over a dirty chain (stale established-scoped
rule, unrelated leftover rule, duplicated desired rule) succeeds, and the
stale established-scoped rule is gone afterwards. -/
theorem ensureActiveRules_complete_reset_witness :
    ensureActiveRules (portMapForOffset 0) wDirty = .ok () wDirtyReset ∧
      (ruleKey (establishedDNATRule 6443 6443) ∈ wDirtyReset.ipt.apiRules ↔
        ruleKey (establishedDNATRule 6443 6443) ∈
          [ruleKey (dnatRule 6443 6443), ruleKey (dnatRule 6080 6080),
           ruleKey (dnatRule 17697 17697)]) :=
  ⟨by decide,
    (@ensureActiveRules_complete_reset 0 wDirty wDirtyReset (by decide)).1
      (ruleKey (establishedDNATRule 6443 6443))⟩

/-- C2: contrary to the claim, a run over a directory with three matching
manifests does record the warning and return success, but it does not
stop there: it mutates the chain (ending with the offset-1 DNAT rules,
different from the untouched initial chain) and deletes the
lowest-revision manifest file.  The `default:` arm of the switch in
cmd.go only logs and then falls through to the full transition. -/
theorem gracefulRollout_three_manifests_mutates :
    (gracefulRollout [mRev3, mRev4, mRev5] wTriple).isOk = true ∧
      (gracefulRollout [mRev3, mRev4, mRev5] wTriple).world.warnings =
        [gracefulWarning 3] ∧
      mRev3.Filename ∉ (gracefulRollout [mRev3, mRev4, mRev5] wTriple).world.files ∧
      (gracefulRollout [mRev3, mRev4, mRev5] wTriple).world.ipt.apiRules =
        dnatKeys (portMapForOffset 1) ∧
      (gracefulRollout [mRev3, mRev4, mRev5] wTriple).world.ipt.apiRules ≠
        wTriple.ipt.apiRules := by decide

/-- Counterexample for C3: a two-manifest run in which the transition
step fails with `fault 8` and the rollback fails with `fault 10` returns
only the rollback error and logs only the rollback error: the primary
error `fault 8` is dropped, so the two errors are not both surfaced. -/
theorem gracefulRollout_double_fault_drops_primary :
    ensureActiveRules (activePortMap mRev3.Port) wPairFault810 =
      .ok () ((ensureActiveRules (activePortMap mRev3.Port) wPairFault810).world) ∧
    ensureTransitionRules (activePortMap mRev3.Port) (NextPortMap mRev3.Port)
        ((ensureActiveRules (activePortMap mRev3.Port) wPairFault810).world) =
      .err (.fault 8)
        ((ensureTransitionRules (activePortMap mRev3.Port) (NextPortMap mRev3.Port)
          ((ensureActiveRules (activePortMap mRev3.Port) wPairFault810).world)).world) ∧
    gracefulRollout [mRev3, mRev4] wPairFault810 =
      .err (.fault 10) ((gracefulRollout [mRev3, mRev4] wPairFault810).world) ∧
    (gracefulRollout [mRev3, mRev4] wPairFault810).world.elog = [GoErr.fault 10] ∧
    GoErr.fault 8 ≠ GoErr.fault 10 := by decide

/-- C3 (amended): when the transition-rules step (or the subsequent
manifest-deletion step) of a two-manifest run fails, the orchestrator
attempts rollback with `ensureActiveRules(activeMap)`; if the rollback
succeeds, the original step error is returned; if the rollback also
fails, the rollback error is logged and returned and the original error
is dropped (the inner `err` shadows the outer one in cmd.go).  The
drain-wait step cannot fail, its prober being a stub. -/
theorem gracefulRollout_rollback_error_propagation
    {m1 m2 : StaticPodManifest} {w w1 : World}
    (hrev : m1.Revision < m2.Revision)
    (h1 : ensureActiveRules (activePortMap m1.Port) w = .ok () w1) :
    (∀ e w2,
       ensureTransitionRules (activePortMap m1.Port) (NextPortMap m1.Port) w1 = .err e w2 →
       (∀ w3, ensureActiveRules (activePortMap m1.Port) w2 = .ok () w3 →
          gracefulRollout [m1, m2] w = .err e w3) ∧
       (∀ e2 w3, ensureActiveRules (activePortMap m1.Port) w2 = .err e2 w3 →
          gracefulRollout [m1, m2] w = .err e2 (logError e2 w3) ∧
            (logError e2 w3).elog = w3.elog ++ [e2])) ∧
    (∀ w2, ensureTransitionRules (activePortMap m1.Port) (NextPortMap m1.Port) w1 = .ok () w2 →
       ∀ e w2b, osRemove m1.Filename w2 = .err e w2b →
       (∀ w3, ensureActiveRules (activePortMap m1.Port) w2b = .ok () w3 →
          gracefulRollout [m1, m2] w = .err e w3) ∧
       (∀ e2 w3, ensureActiveRules (activePortMap m1.Port) w2b = .err e2 w3 →
          gracefulRollout [m1, m2] w = .err e2 (logError e2 w3) ∧
            (logError e2 w3).elog = w3.elog ++ [e2])) := by
  constructor
  · intro e w2 h2
    constructor
    · intro w3 h3
      rw [gracefulRollout_two_eq hrev h1]
      simp only [h2, h3]
    · intro e2 w3 h3
      rw [gracefulRollout_two_eq hrev h1]
      simp only [h2, h3]
      exact ⟨trivial, rfl⟩
  · intro w2 h2 e w2b hrm
    constructor
    · intro w3 h3
      rw [gracefulRollout_two_eq hrev h1]
      simp only [h2, hrm, h3]
    · intro e2 w3 h3
      rw [gracefulRollout_two_eq hrev h1]
      simp only [h2, hrm, h3]
      exact ⟨trivial, rfl⟩

/-- Witness for C3 (amended): in the fault-8 scenario the transition step
fails, the rollback succeeds, and the run returns the original error
`fault 8`. -/
theorem gracefulRollout_rollback_error_propagation_witness :
    mRev3.Revision < mRev4.Revision ∧
      gracefulRollout [mRev3, mRev4] wPairFault8 = .err (.fault 8) wPF8c :=
  ⟨by decide,
    ((@gracefulRollout_rollback_error_propagation mRev3 mRev4 wPairFault8 wPF8a
        (by decide) (by decide)).1 (GoErr.fault 8) wPF8b (by decide)).1 wPF8c
      (by decide)⟩

/-- C4: if, in a two-manifest run, the transition step fails and the
rollback `ensureActiveRules(activeMap)` succeeds, the run returns the
original transition error, the chain ends up containing exactly the
unconditional DNAT rules of the active map (membership-wise), and the
active (lowest-revision) manifest file has not been deleted. -/
theorem gracefulRollout_transition_failure_rollback
    {m1 m2 : StaticPodManifest} {w w1 w2 w3 : World} {e : GoErr}
    (hrev : m1.Revision < m2.Revision)
    (h1 : ensureActiveRules (activePortMap m1.Port) w = .ok () w1)
    (h2 : ensureTransitionRules (activePortMap m1.Port) (NextPortMap m1.Port) w1 = .err e w2)
    (h3 : ensureActiveRules (activePortMap m1.Port) w2 = .ok () w3)
    (hf : m1.Filename ∈ w.files) :
    gracefulRollout [m1, m2] w = .err e w3 ∧
      (∀ r, r ∈ w3.ipt.apiRules ↔ r ∈ dnatKeys (activePortMap m1.Port)) ∧
      m1.Filename ∈ w3.files := by
  refine ⟨?_, (ensureActiveRules_spec h3).1, ?_⟩
  · rw [gracefulRollout_two_eq hrev h1]
    simp only [h2, h3]
  · have fr2 := frame_ensureTransitionRules (activePortMap m1.Port) (NextPortMap m1.Port) w1
    rw [h2] at fr2
    simp only [Res.world] at fr2
    rw [(ensureActiveRules_spec h3).2.2.2.1, fr2.1,
      (ensureActiveRules_spec h1).2.2.2.1]
    exact hf

/-- Witness for C4: the fault-8 scenario, in which the rollback restores
the chain and the revision-3 manifest file survives. -/
theorem gracefulRollout_transition_failure_rollback_witness :
    mRev3.Revision < mRev4.Revision ∧ mRev3.Filename ∈ wPairFault8.files ∧
      gracefulRollout [mRev3, mRev4] wPairFault8 = .err (.fault 8) wPF8c :=
  ⟨by decide, by decide,
    (@gracefulRollout_transition_failure_rollback mRev3 mRev4 wPairFault8 wPF8a wPF8b
      wPF8c (GoErr.fault 8) (by decide) (by decide) (by decide) (by decide)
      (by decide)).1⟩

/-- C5: over the valid active ports 0, 6443, 6444 and 6445, the offset
used by `NextPortMap` never equals `offsetForActivePort`, so the port
map of the next instance never collides with that of the active one. -/
theorem nextPortMap_no_self_collision :
    ∀ a, a ∈ [0, 6443, 6444, 6445] →
      nextPortOffset a ≠ offsetForActivePort a ∧
        NextPortMap a ≠ activePortMap a := by decide

/-- Witness for C5 at the offset-2 active port 6445. -/
theorem nextPortMap_no_self_collision_witness :
    6445 ∈ [0, 6443, 6444, 6445] ∧
      (nextPortOffset 6445 ≠ offsetForActivePort 6445 ∧
        NextPortMap 6445 ≠ activePortMap 6445) :=
  ⟨by decide, nextPortMap_no_self_collision 6445 (by decide)⟩

/-- Counterexample for C6: feeding the secure-port output of `NextPortMap`
back in, starting from 6443, visits offsets 0 (start), 1, 2 — but the
third composition lands back on offset 1 (port 6444), not on offset 0:
the iteration never returns to the canonical port. -/
theorem nextPortMap_iteration_not_three_cycle :
    iterSecure 0 = 6443 ∧ offsetForActivePort (iterSecure 1) = 1 ∧
      offsetForActivePort (iterSecure 2) = 2 ∧
      offsetForActivePort (iterSecure 3) = 1 ∧
      iterSecure 3 ≠ 6443 ∧ offsetForActivePort (iterSecure 3) ≠ 0 := by decide

/-- C6 (amended): composing `NextPortMap` with itself from 6443 is
deterministic but alternates between offsets 1 (port 6444) and 2 (port
6445) from the first step on; it never returns to offset 0. -/
theorem nextPortMap_iteration_alternates :
    ∀ n, iterSecure (2 * n + 1) = 6444 ∧ iterSecure (2 * n + 2) = 6445 ∧
      offsetForActivePort (iterSecure (2 * n + 1)) = 1 ∧
      offsetForActivePort (iterSecure (2 * n + 2)) = 2 := by
  intro n
  induction n with
  | zero => decide
  | succ k ih =>
    obtain ⟨h1, h2, _, _⟩ := ih
    have e1 : iterSecure (2 * (k + 1) + 1) = 6444 := by
      show stepSecure (iterSecure (2 * k + 2)) = 6444
      rw [h2]
      decide
    have e2 : iterSecure (2 * (k + 1) + 2) = 6445 := by
      show stepSecure (iterSecure (2 * (k + 1) + 1)) = 6445
      rw [e1]
      decide
    exact ⟨e1, e2, by rw [e1]; decide, by rw [e2]; decide⟩

/-- Counterexample for C7: for the active port 6445 (offset 2) the code
selects offset 1, not offset 2 as predicted by the clause "offset 2
otherwise" of the claim (only the exact port 6444 selects offset 2). -/
theorem nextPortMap_not_offset2_for_6445 :
    NextPortMap 6445 = portMapForOffset 1 ∧
      portMapForOffset 1 ≠ portMapForOffset 2 := by decide

/-- C7 (amended): `NextPortMap` uses offset 2 exactly when the active
port is 6444, and offset 1 for every other active port — including 0 (no
active instance) and 6445; the resulting secure/insecure/check ports for
the offset-1 case are 6444, 6081 and 17698. -/
theorem nextPortMap_offset_selection (a : Nat) (h : a ≠ 6444) :
    NextPortMap a = portMapForOffset 1 ∧
      mapGet (NextPortMap a) 6443 = 6444 ∧
      mapGet (NextPortMap a) 6080 = 6081 ∧
      mapGet (NextPortMap a) 17697 = 17698 ∧
      NextPortMap 6444 = portMapForOffset 2 ∧
      NextPortMap 0 = portMapForOffset 1 := by
  have h0 : NextPortMap a = portMapForOffset 1 := by
    rw [NextPortMap, nextPortOffset, if_neg (by simpa using h)]
  refine ⟨h0, ?_, ?_, ?_, by decide, by decide⟩ <;> rw [h0] <;> decide

/-- Witness for C7 (amended) at the first-startup edge case `a = 0`. -/
theorem nextPortMap_offset_selection_witness :
    (0 : Nat) ≠ 6444 ∧ NextPortMap 0 = portMapForOffset 1 ∧
      mapGet (NextPortMap 0) 6443 = 6444 :=
  ⟨by decide, (nextPortMap_offset_selection 0 (by decide)).1,
    (nextPortMap_offset_selection 0 (by decide)).2.1⟩

/-- Counterexample for C8: invoked on a fault-free world in which the
dedicated chain does not exist, `ensureTransitionRules` fails (it never
creates the chain or its jumps, unlike `ensureActiveRules`). -/
theorem ensureTransitionRules_fails_without_chain :
    (cleanWorld []).faults = [] ∧
      (cleanWorld []).ipt.apiChainExists = false ∧
      (ensureTransitionRules (portMapForOffset 0) (portMapForOffset 1)
          (cleanWorld [])).isOk = false := by decide

/-- C8 (amended): from every prior state in which the dedicated chain
exists, a fault-free `ensureTransitionRules` succeeds and establishes
exactly (membership-wise) the union of established-scoped active rules
and unconditional next rules; when the chain is absent the call fails
instead of creating it. -/
theorem ensureTransitionRules_safe_with_chain {aM nM : List (Nat × Nat)} {w : World}
    (hfa : w.faults = []) (hex : w.ipt.apiChainExists = true) :
    (ensureTransitionRules aM nM w).isOk = true ∧
      ∀ r, r ∈ (ensureTransitionRules aM nM w).world.ipt.apiRules ↔
        r ∈ transitionKeys aM nM := by
  obtain ⟨w2, hw2⟩ := ensureTransitionRules_nofault hfa hex
  rw [hw2]
  exact ⟨rfl, (ensureTransitionRules_spec hw2).1⟩

/-- Witness for C8 (amended): the dirty-chain world (chain present,
stale content) is reconciled without error. -/
theorem ensureTransitionRules_safe_with_chain_witness :
    wDirty.faults = [] ∧ wDirty.ipt.apiChainExists = true ∧
      (ensureTransitionRules (portMapForOffset 0) (portMapForOffset 1) wDirty).isOk =
        true :=
  ⟨by decide, by decide,
    (ensureTransitionRules_safe_with_chain (by decide) (by decide)).1⟩

/-- C9: `activePortMap` maps each canonical port to canonical plus
`activePort mod 6443`; and the single-manifest scenario (revision 3 at
port 6443) ends successfully with the chain holding exactly the three
offset-0 DNAT rules 6443 to 6443, 6080 to 6080 and 17697 to 17697. -/
theorem activePortMap_mod_and_single_scenario :
    (∀ a, activePortMap a =
        [(6443, 6443 + a % 6443), (6080, 6080 + a % 6443),
         (17697, 17697 + a % 6443)]) ∧
      gracefulRollout [mRev3] wSingle =
        .ok () ((gracefulRollout [mRev3] wSingle).world) ∧
      (gracefulRollout [mRev3] wSingle).world.ipt.apiRules =
        [ruleKey (dnatRule 6443 6443), ruleKey (dnatRule 6080 6080),
         ruleKey (dnatRule 17697 17697)] :=
  ⟨fun _ => rfl, by decide, by decide⟩

/-- C10: the readiness prober of cmd.go is a stub — it returns success
immediately for every port and every world, performing no connection
attempt (its result does not depend on any state at all), contrary to
the claimed poll-until-outcome contract. -/
theorem waitForConnRefused_is_stub :
    ∀ (port : Nat) (w : World), waitForConnRefused port w = .ok () w :=
  fun _ _ => rfl
